import Mathlib

/-! # NES CPU core (nescpp): shallow embedding and verified properties

The embedding follows `src/memory.cpp`, `src/cpu.hpp` and `src/cpu.cpp`.

* Machine integers are natural numbers; every conversion to `std::uint8_t`
  is an explicit `% 256` and every conversion to `std::uint16_t` an explicit
  `% 65536`.
* `NES::Memory` owns a heap array (`std::unique_ptr<std::uint8_t[]>`); it is
  a list of bytes here.  Indexing the array outside its extent has no defined
  result in C++, so `Memory.read` and `Memory.write` return `none` there and
  every operation that reads memory is `Option`-valued.
* `CPU` holds a `Memory*`; the record holds the memory it points to.
-/

namespace NES

/-! ## memory.hpp / memory.cpp -/

/-- The class `NES::Memory`: its only data member is the backing store. -/
structure Memory where
  _memory : List Nat
  deriving DecidableEq, Repr

/-- The constructor `Memory::Memory()` (a type and a function cannot share the
name here): `std::make_unique<std::uint8_t[]>(0x800)`,
a value-initialised (all zero) array of `0x800` bytes. -/
def Memory.ctor : Memory := ⟨List.replicate 0x800 0⟩

/-- The method `Memory::read(std::uint16_t address)`: `return _memory[address];`.
The result is `none` when `address` lies outside the backing store. -/
def Memory.read (m : Memory) (address : Nat) : Option Nat :=
  (m._memory[address % 65536]?).map (fun b => b % 256)

/-- The method `Memory::write(std::uint16_t address, std::uint8_t value)`:
`_memory[address] = value; return 0;`.  The result is the returned number
together with the memory after the store, `none` when `address` lies outside
the backing store. -/
def Memory.write (m : Memory) (address value : Nat) : Option (Nat × Memory) :=
  if address % 65536 < m._memory.length then
    some (0, ⟨m._memory.set (address % 65536) (value % 256)⟩)
  else
    none

/-! ## cpu.hpp -/

/-- The enumeration `CPU::StatusFlag`. -/
inductive StatusFlag where
  | C | Z | I | D | B | A | V | N
  deriving DecidableEq, Repr

/-- The enumerator values of `CPU::StatusFlag` (bit masks of the status byte). -/
def StatusFlag.toNat : StatusFlag → Nat
  | .C => 0x01
  | .Z => 0x02
  | .I => 0x04
  | .D => 0x08
  | .B => 0x10
  | .A => 0x20
  | .V => 0x40
  | .N => 0x80

/-- The enumeration `CPU::AddressingMode` of `cpu.hpp`, together with the two
enumerators `IndirectX` and `IndirectY` that the opcode table of `cpu.cpp`
names. -/
inductive AddressingMode where
  | Implicit | ZeroPage | ZeroPageX | ZeroPageY | Absolute | AbsoluteX
  | AbsoluteY | Immediate | Relative | IndirectX | IndirectY
  deriving DecidableEq, Repr

/-- The instruction handlers that `cpu.cpp` defines; an `Operation` refers to
its handler (`std::bind(&CPU::_adc, this)`) by this tag. -/
inductive Handler where
  | _adc | _and
  deriving DecidableEq, Repr

/-- The record `CPU::Operation`. -/
structure Operation where
  name : String
  exec_func : Handler
  standard_cycles : Nat
  extra_cycles : Nat
  addressing_mode : AddressingMode
  deriving DecidableEq, Repr

/-- Modelled from the spec: the enumeration `Vector`, which `cpu.cpp` uses and
no source file declares.  Section 6 fixes the three vectors. -/
inductive Vector where
  | NMI | RESET | IRQ
  deriving DecidableEq, Repr

/-- Modelled from the spec: the enumerator values of `Vector`, which no source
file declares: NMI = 0xFFFA/0xFFFB, RESET = 0xFFFC/0xFFFD,
IRQ/BRK = 0xFFFE/0xFFFF. -/
def Vector.toNat : Vector → Nat
  | .NMI => 0xFFFA
  | .RESET => 0xFFFC
  | .IRQ => 0xFFFE

/-- The data members of the class `NES::CPU` (`_opcode_map` is assigned by
the constructor in `cpu.cpp`). -/
structure CPU where
  _accumulator : Nat
  _x_register : Nat
  _y_register : Nat
  _processor_status : Nat
  _stack_pointer : Nat
  _program_counter : Nat
  _debug : Bool
  _memory : Memory
  _opcode_map : List (Nat × Operation)
  deriving DecidableEq, Repr

/-- Every register holds a value of its C++ type: the five `std::uint8_t`
members are below `256` and the `std::uint16_t` program counter is below
`65536`. -/
def CPU.InRange (c : CPU) : Prop :=
  c._accumulator < 256 ∧ c._x_register < 256 ∧ c._y_register < 256 ∧
  c._processor_status < 256 ∧ c._stack_pointer < 256 ∧ c._program_counter < 65536

instance (c : CPU) : Decidable c.InRange := by
  unfold CPU.InRange; infer_instance

/-- Modelled from the spec: the accessor `CPU::_getFlag`, which `cpu.cpp` calls
and no source file defines.  Section 4.1: `get(flag) -> bool` reads the bit of
the flag in the status byte. -/
def CPU._getFlag (c : CPU) (flag : StatusFlag) : Bool :=
  c._processor_status &&& flag.toNat != 0

/-- Modelled from the spec: the accessor `CPU::_setFlag`, which `cpu.cpp` calls
and no source file defines.  Section 4.1: `set(flag, bool)` sets or clears the
bit of the flag, with no side effects beyond the status byte. -/
def CPU._setFlag (c : CPU) (flag : StatusFlag) (value : Bool) : CPU :=
  { c with _processor_status :=
      if value then (c._processor_status ||| flag.toNat) % 256
      else c._processor_status &&& (255 - flag.toNat) }

/-! ## cpu.cpp -/

/-- The method `CPU::_readVector`. -/
def CPU._readVector (c : CPU) (vec : Vector) : Option Nat := do
  let address := vec.toNat % 65536
  let result ← c._memory.read address
  let high ← c._memory.read ((address + 1) % 65536)
  let result := (result ||| ((high % 65536) <<< 8)) % 65536
  pure result

/-- The opcode table that the constructor assigns to `_opcode_map`. -/
def opcodeTable : List (Nat × Operation) :=
  [ (0x69, ⟨"ADC", ._adc, 2, 0, .Immediate⟩),
    (0x65, ⟨"ADC", ._adc, 3, 0, .ZeroPage⟩),
    (0x75, ⟨"ADC", ._adc, 4, 0, .ZeroPageX⟩),
    (0x6D, ⟨"ADC", ._adc, 4, 0, .Absolute⟩),
    (0x7D, ⟨"ADC", ._adc, 4, 1, .AbsoluteX⟩),
    (0x79, ⟨"ADC", ._adc, 4, 1, .AbsoluteY⟩),
    (0x61, ⟨"ADC", ._adc, 6, 0, .IndirectX⟩),
    (0x71, ⟨"ADC", ._adc, 5, 1, .IndirectY⟩) ]

/-- The constructor `CPU::CPU(Memory* mem)`.  The member `_debug` has no
initialiser, so its initial value is an argument. -/
def CPU.ctor (mem : Memory) (debug : Bool) : Option CPU := do
  let c : CPU :=
    { _accumulator := 0x00
      _x_register := 0x00
      _y_register := 0x00
      _processor_status := 0x34
      _stack_pointer := 0xFD
      _program_counter := 0
      _debug := debug
      _memory := mem
      _opcode_map := [] }
  let pc ← c._readVector .RESET
  let c := { c with _program_counter := pc }
  pure { c with _opcode_map := opcodeTable }

/-- The method `CPU::reset`. -/
def CPU.reset (c : CPU) : Option CPU := do
  let pc ← c._readVector .RESET
  let c := { c with _program_counter := pc }
  let c := { c with _stack_pointer := (c._stack_pointer + 256 - 3) % 256 }
  pure (c._setFlag .I true)

/-- The method `CPU::_adc`. -/
def CPU._adc (c : CPU) : CPU :=
  let op_data : Nat := 0
  let result : Nat := (c._accumulator + op_data) % 65536
  let result : Nat := if c._getFlag .C then (result + 1) % 65536 else result
  let c := c._setFlag .N (decide (result < 0x00))
  let c := c._setFlag .Z (decide (result = 0x00))
  let c := c._setFlag .C (decide (result > 0xFF))
  { c with _accumulator := op_data % 256 }

/-- The method `CPU::_and`, whose body is empty. -/
def CPU._and (c : CPU) : CPU := c

/-! ## States and call sequences used to state the properties -/

/-- A CPU whose accumulator is `a` and whose status byte is `p`; the other
members have their power-up values and the memory is the one that
`Memory::Memory()` builds.  `CPU::_adc` reads the accumulator and the status
byte only. -/
def adcState (a p : Nat) : CPU :=
  { _accumulator := a
    _x_register := 0x00
    _y_register := 0x00
    _processor_status := p
    _stack_pointer := 0xFD
    _program_counter := 0
    _debug := false
    _memory := Memory.ctor
    _opcode_map := opcodeTable }

/-- A memory whose backing store spans the whole 16-bit address space: all
zero except the RESET vector, which holds `0x8000` (low byte `0x00` at
`0xFFFC`, high byte `0x80` at `0xFFFD`). -/
def vectorMemory : Memory := ⟨List.replicate 0xFFFC 0 ++ [0x00, 0x80, 0x00, 0x00]⟩

/-- A call of one of the two operations on a constructed CPU that `cpu.cpp`
implements. -/
inductive Call where
  | reset | _adc
  deriving DecidableEq, Repr

/-- The effect of one call. -/
def CPU.call (c : CPU) : Call → Option CPU
  | .reset => c.reset
  | ._adc => some c._adc

/-- The effect of a sequence of calls, first call first. -/
def CPU.calls (c : CPU) : List Call → Option CPU
  | [] => some c
  | k :: ks => (c.call k).bind (fun c' => c'.calls ks)

/-! ## Auxiliary facts -/

theorem Memory.read_lt_256 {m : Memory} {a b : Nat} (h : m.read a = some b) : b < 256 := by
  unfold Memory.read at h
  cases hx : m._memory[a % 65536]? with
  | none => simp [hx] at h
  | some x =>
    simp [hx] at h
    omega

theorem byte_or_shift (lo hi : Nat) (hlo : lo < 256) (hhi : hi < 256) :
    (lo ||| ((hi % 65536) <<< 8)) % 65536 = lo + 256 * hi := by
  have h1 : hi % 65536 = hi := Nat.mod_eq_of_lt (by omega)
  have h2 : 2 ^ 8 * hi + lo = 2 ^ 8 * hi ||| lo :=
    Nat.mul_add_lt_is_or (by norm_num; exact hlo) hi
  rw [h1, Nat.shiftLeft_eq, Nat.or_comm, Nat.mul_comm, ← h2]
  norm_num
  omega

theorem readVector_of_reads (c : CPU) (vec : Vector) (lo hi : Nat)
    (hlo : c._memory.read vec.toNat = some lo)
    (hhi : c._memory.read (vec.toNat + 1) = some hi) :
    c._readVector vec = some (lo + 256 * hi) := by
  have h1 : vec.toNat % 65536 = vec.toNat := by cases vec <;> rfl
  have h2 : (vec.toNat + 1) % 65536 = vec.toNat + 1 := by cases vec <;> rfl
  unfold CPU._readVector
  simp only [h1, h2, hlo, hhi, Option.bind_eq_bind, Option.some_bind, Option.pure_def,
    bind_pure_comp, Option.map_some']
  rw [byte_or_shift lo hi (Memory.read_lt_256 hlo) (Memory.read_lt_256 hhi)]

theorem vectorMemory_read_lo : vectorMemory.read 0xFFFC = some 0x00 := by
  have h : (List.replicate 0xFFFC 0).length ≤ 0xFFFC % 65536 := by
    rw [List.length_replicate]
  rw [Memory.read, vectorMemory, List.getElem?_append_right h, List.length_replicate]
  rfl

theorem vectorMemory_read_hi : vectorMemory.read 0xFFFD = some 0x80 := by
  have h : (List.replicate 0xFFFC 0).length ≤ 0xFFFD % 65536 := by
    rw [List.length_replicate]; decide
  rw [Memory.read, vectorMemory, List.getElem?_append_right h, List.length_replicate]
  rfl

theorem ctor_of_reads (mem : Memory) (debug : Bool) (lo hi : Nat)
    (hlo : mem.read 0xFFFC = some lo) (hhi : mem.read 0xFFFD = some hi) :
    CPU.ctor mem debug =
      some ⟨0x00, 0x00, 0x00, 0x34, 0xFD, lo + 256 * hi, debug, mem, opcodeTable⟩ := by
  have h := readVector_of_reads ⟨0x00, 0x00, 0x00, 0x34, 0xFD, 0, debug, mem, []⟩
    .RESET lo hi hlo hhi
  unfold CPU.ctor
  dsimp only
  rw [h]
  rfl

theorem reset_of_reads (c : CPU) (lo hi : Nat)
    (hlo : c._memory.read 0xFFFC = some lo) (hhi : c._memory.read 0xFFFD = some hi) :
    c.reset =
      some ⟨c._accumulator, c._x_register, c._y_register,
        (c._processor_status ||| 0x04) % 256, (c._stack_pointer + 256 - 3) % 256,
        lo + 256 * hi, c._debug, c._memory, c._opcode_map⟩ := by
  unfold CPU.reset
  rw [readVector_of_reads c .RESET lo hi hlo hhi]
  rfl

theorem or_four_and_four (p : Nat) : ((p ||| 4) % 256 &&& 4 != 0) = true := by
  have h : ((p ||| 4) % 2 ^ 8 &&& 4).testBit 2 = true := by
    rw [Nat.testBit_and, Nat.testBit_mod_two_pow, Nat.testBit_or]
    have h4 : (4 : Nat).testBit 2 = true := by decide
    simp [h4]
  have hne : (p ||| 4) % 2 ^ 8 &&& 4 ≠ 0 := by
    intro h0
    rw [h0] at h
    simp at h
  simpa using hne

set_option maxRecDepth 100000 in
theorem or_four_keeps_other_bits :
    ∀ p < 256, (p ||| 4) % 256 &&& 0xFB = p &&& 0xFB := by
  decide

set_option maxRecDepth 100000 in
theorem setFlag_keeps_always_on :
    ∀ p < 256, p &&& 0x20 ≠ 0 → ∀ f : StatusFlag, f ≠ .A →
      ((p ||| f.toNat) % 256 < 256 ∧ (p ||| f.toNat) % 256 &&& 0x20 ≠ 0) ∧
      (p &&& (255 - f.toNat) < 256 ∧ p &&& (255 - f.toNat) &&& 0x20 ≠ 0) := by
  intro p hp h f hf
  cases f
  case A => exact absurd rfl hf
  all_goals
    revert p
    simp only [StatusFlag.toNat]
    decide

/-- The invariant behind the always-on bit: the status byte is a byte and its
bit 5 is set. -/
theorem always_on_setFlag (c : CPU) (f : StatusFlag) (v : Bool) (hf : f ≠ .A)
    (h : c._processor_status < 256 ∧ c._processor_status &&& 0x20 ≠ 0) :
    (c._setFlag f v)._processor_status < 256 ∧
      (c._setFlag f v)._processor_status &&& 0x20 ≠ 0 := by
  have key := setFlag_keeps_always_on c._processor_status h.1 h.2 f hf
  cases v
  · exact key.2
  · exact key.1

theorem always_on_adc (c : CPU)
    (h : c._processor_status < 256 ∧ c._processor_status &&& 0x20 ≠ 0) :
    c._adc._processor_status < 256 ∧ c._adc._processor_status &&& 0x20 ≠ 0 := by
  unfold CPU._adc
  dsimp only
  apply always_on_setFlag _ _ _ (by decide)
  apply always_on_setFlag _ _ _ (by decide)
  exact always_on_setFlag _ _ _ (by decide) h

theorem always_on_reset (c r : CPU) (hr : c.reset = some r)
    (h : c._processor_status < 256 ∧ c._processor_status &&& 0x20 ≠ 0) :
    r._processor_status < 256 ∧ r._processor_status &&& 0x20 ≠ 0 := by
  unfold CPU.reset at hr
  cases hv : c._readVector .RESET with
  | none => simp [hv] at hr
  | some pc =>
    simp only [hv, Option.bind_eq_bind, Option.some_bind, Option.pure_def,
      Option.some.injEq] at hr
    subst hr
    exact always_on_setFlag _ .I true (by decide) h

theorem always_on_calls (ks : List Call) :
    ∀ c r : CPU, c.calls ks = some r →
      (c._processor_status < 256 ∧ c._processor_status &&& 0x20 ≠ 0) →
      (r._processor_status < 256 ∧ r._processor_status &&& 0x20 ≠ 0) := by
  induction ks with
  | nil =>
    intro c r hr h
    simp only [CPU.calls, Option.some.injEq] at hr
    subst hr
    exact h
  | cons k ks ih =>
    intro c r hr h
    simp only [CPU.calls] at hr
    cases hk : c.call k with
    | none => simp [hk] at hr
    | some c1 =>
      rw [hk] at hr
      simp only [Option.some_bind] at hr
      apply ih c1 r hr
      cases k with
      | reset => exact always_on_reset c c1 hk h
      | _adc =>
        simp only [CPU.call, Option.some.injEq] at hk
        subst hk
        exact always_on_adc c h

/-! ## ADC against its documented operation `A + M + C -> A, C` -/

/-- C1: the claim wants the accumulator to hold `(A + M + C) mod 256` after
`CPU::_adc`.  At `A = 0x05`, `M = 0x01`, carry clear that is `0x06`; the code
stores `op_data`, which is `0`, whatever the operand (also at `A = 0xFF`,
`M = 0x01`, where the two happen to agree, and at `A = 0x05`, `M = 0`). -/
theorem adc_accumulator_is_zero_not_sum :
    (adcState 0x05 0x34)._getFlag .C = false ∧
    (adcState 0x05 0x34)._adc._accumulator = 0 ∧
    (0x05 + 0x01 + 0) % 256 = 0x06 ∧ (0x05 + 0x00 + 0) % 256 = 0x05 := by
  decide

/-- C2: the claim wants Carry set iff `A + M + C > 0xFF`.  At `A = 0xFF`,
`M = 0x01`, carry clear the sum is `0x100`, and the code leaves Carry clear:
it compares `A + 0 + C = 0xFF` with `0xFF`. -/
theorem adc_carry_clear_on_255_plus_1 :
    (adcState 0xFF 0x34)._getFlag .C = false ∧
    (adcState 0xFF 0x34)._adc._getFlag .C = false ∧
    0xFF + 0x01 + 0 > 0xFF := by
  decide

/-- C3: the claim wants Zero set iff `(A + M + C) & 0xFF = 0`.  At `A = 0xFF`,
`M = 0`, carry set the low byte of the sum is `0`, and the code leaves Zero
clear, because it compares the unmasked 16-bit sum `0x100` with `0`; at
`A = 0xFF`, `M = 0x01`, carry clear it leaves Zero clear too, the operand
being dropped. -/
theorem adc_zero_clear_on_wrapped_sum :
    (adcState 0xFF 0x35)._getFlag .C = true ∧
    (adcState 0xFF 0x35)._adc._getFlag .Z = false ∧
    (0xFF + 0x00 + 1) &&& 0xFF = 0 ∧
    (adcState 0xFF 0x34)._getFlag .C = false ∧
    (adcState 0xFF 0x34)._adc._getFlag .Z = false ∧
    (0xFF + 0x01 + 0) &&& 0xFF = 0 := by
  decide

/-- C4: the claim wants Negative to equal bit 7 of the low byte of
`A + M + C`.  At `A = 0x80`, `M = 0`, carry clear that bit is `1`, and the code
leaves Negative clear: it tests `result < 0x00` on an unsigned value. -/
theorem adc_negative_clear_on_0x80 :
    (adcState 0x80 0x34)._getFlag .C = false ∧
    (adcState 0x80 0x34)._adc._getFlag .N = false ∧
    ((0x80 + 0x00 + 0) % 256).testBit 7 = true := by
  decide

/-- C5: the claim wants Overflow set iff `A` and `M` have one sign bit and
the 8-bit result the other.  At `A = 0x7F`, `M = 0`, carry set (and at
`A = 0x40`, `M = 0x40`, carry clear) both operands are positive and the result
`0x80` is negative, and the code leaves Overflow clear: it never writes that
flag. -/
theorem adc_overflow_clear_on_signed_overflow :
    (adcState 0x7F 0x35)._getFlag .C = true ∧
    (adcState 0x7F 0x35)._getFlag .V = false ∧
    (adcState 0x7F 0x35)._adc._getFlag .V = false ∧
    (0x7F).testBit 7 = false ∧ (0x00).testBit 7 = false ∧
    ((0x7F + 0x00 + 1) &&& 0xFF).testBit 7 = true ∧
    (adcState 0x40 0x34)._adc._getFlag .V = false ∧
    (0x40).testBit 7 = false ∧ ((0x40 + 0x40 + 0) &&& 0xFF).testBit 7 = true := by
  decide

/-! ## Reset, construction and the interrupt vectors -/

/-- C6: for every CPU state whose memory stores bytes `lo` at `0xFFFC` and
`hi` at `0xFFFD`, `CPU::reset` returns a state whose program counter is the
16-bit value `lo + 256 * hi` of the RESET vector, whose InterruptDisable flag
is set, and whose stack pointer is `(old stack pointer - 3) mod 256`. -/
theorem reset_loads_vector_sets_I_lowers_sp (c : CPU) (lo hi : Nat)
    (hlo : c._memory.read 0xFFFC = some lo) (hhi : c._memory.read 0xFFFD = some hi) :
    ∃ r, c.reset = some r ∧
      r._program_counter = lo + 256 * hi ∧
      r._getFlag .I = true ∧
      (r._stack_pointer : Int) = ((c._stack_pointer : Int) - 3) % 256 := by
  refine ⟨_, reset_of_reads c lo hi hlo hhi, rfl, ?_, ?_⟩
  · exact or_four_and_four c._processor_status
  · show (((c._stack_pointer + 256 - 3) % 256 : Nat) : Int) = _
    omega

/-- Witness of C6: the stack pointer `0x02` wraps to `0xFF`, the program
counter becomes `0x8000` and InterruptDisable (clear before) is set. -/
theorem reset_loads_vector_sets_I_lowers_sp_witness :
    (⟨0x11, 0x22, 0x33, 0x20, 0x02, 0x1234, false, vectorMemory, opcodeTable⟩ : CPU)._getFlag .I
      = false ∧
    ∃ r, (⟨0x11, 0x22, 0x33, 0x20, 0x02, 0x1234, false, vectorMemory, opcodeTable⟩ : CPU).reset
        = some r ∧
      r._program_counter = 0x00 + 256 * 0x80 ∧
      r._getFlag .I = true ∧
      (r._stack_pointer : Int) = (((0x02 : Nat) : Int) - 3) % 256 :=
  ⟨by decide,
   reset_loads_vector_sets_I_lowers_sp
     ⟨0x11, 0x22, 0x33, 0x20, 0x02, 0x1234, false, vectorMemory, opcodeTable⟩ 0x00 0x80
     vectorMemory_read_lo vectorMemory_read_hi⟩

/-- C7: for every CPU state (status byte within a byte) whose memory stores
the RESET vector, `CPU::reset` returns a state with the same memory (it
performs no write), the same accumulator, X and Y, and the same status byte
outside the InterruptDisable bit `0x04`; the debug member and the opcode
table are the same as well. -/
theorem reset_changes_only_pc_sp_I (c : CPU) (lo hi : Nat)
    (hp : c._processor_status < 256)
    (hlo : c._memory.read 0xFFFC = some lo) (hhi : c._memory.read 0xFFFD = some hi) :
    ∃ r, c.reset = some r ∧
      r._memory = c._memory ∧
      r._accumulator = c._accumulator ∧
      r._x_register = c._x_register ∧
      r._y_register = c._y_register ∧
      r._processor_status &&& 0xFB = c._processor_status &&& 0xFB ∧
      r._debug = c._debug ∧
      r._opcode_map = c._opcode_map := by
  refine ⟨_, reset_of_reads c lo hi hlo hhi, rfl, rfl, rfl, rfl, ?_, rfl, rfl⟩
  exact or_four_keeps_other_bits c._processor_status hp

/-- Witness of C7: a state with distinct register values and status byte
`0xEB` (every bit but InterruptDisable and Break set). -/
theorem reset_changes_only_pc_sp_I_witness :
    (0xEB : Nat) < 256 ∧
    ∃ r, (⟨0x11, 0x22, 0x33, 0xEB, 0x02, 0x1234, true, vectorMemory, opcodeTable⟩ : CPU).reset
        = some r ∧
      r._memory = vectorMemory ∧
      r._accumulator = 0x11 ∧
      r._x_register = 0x22 ∧
      r._y_register = 0x33 ∧
      r._processor_status &&& 0xFB = 0xEB &&& 0xFB ∧
      r._debug = true ∧
      r._opcode_map = opcodeTable :=
  ⟨by decide,
   reset_changes_only_pc_sp_I
     ⟨0x11, 0x22, 0x33, 0xEB, 0x02, 0x1234, true, vectorMemory, opcodeTable⟩ 0x00 0x80
     (by decide) vectorMemory_read_lo vectorMemory_read_hi⟩

/-- C8: for every memory that stores bytes `lo` at `0xFFFC` and `hi` at
`0xFFFD`, the constructor `CPU::CPU` returns a CPU with `A = X = Y = 0`,
status byte `0x34`, stack pointer `0xFD` and program counter `lo + 256 * hi`,
the 16-bit value of the RESET vector. -/
theorem ctor_power_up_state (mem : Memory) (debug : Bool) (lo hi : Nat)
    (hlo : mem.read 0xFFFC = some lo) (hhi : mem.read 0xFFFD = some hi) :
    ∃ c, CPU.ctor mem debug = some c ∧
      c._accumulator = 0 ∧ c._x_register = 0 ∧ c._y_register = 0 ∧
      c._processor_status = 0x34 ∧ c._stack_pointer = 0xFD ∧
      c._program_counter = lo + 256 * hi :=
  ⟨_, ctor_of_reads mem debug lo hi hlo hhi, rfl, rfl, rfl, rfl, rfl, rfl⟩

/-- Witness of C8: with `0x8000` in the RESET vector the program counter of a
new CPU is `0x8000`. -/
theorem ctor_power_up_state_witness :
    ∃ c, CPU.ctor vectorMemory false = some c ∧
      c._accumulator = 0 ∧ c._x_register = 0 ∧ c._y_register = 0 ∧
      c._processor_status = 0x34 ∧ c._stack_pointer = 0xFD ∧
      c._program_counter = 0x00 + 256 * 0x80 :=
  ctor_power_up_state vectorMemory false 0x00 0x80 vectorMemory_read_lo vectorMemory_read_hi

/-- C9: for each of the three vectors (`0xFFFA`, `0xFFFC`, `0xFFFE`) and every
memory that stores bytes `lo` at the vector address and `hi` at the next
address, `CPU::_readVector` returns `lo + 256 * hi`; any other CPU whose
memory holds the same two bytes there gets the same result. -/
theorem readVector_little_endian (c : CPU) (vec : Vector) (lo hi : Nat)
    (hlo : c._memory.read vec.toNat = some lo)
    (hhi : c._memory.read (vec.toNat + 1) = some hi) :
    vec.toNat ∈ [0xFFFA, 0xFFFC, 0xFFFE] ∧
    c._readVector vec = some (lo + 256 * hi) ∧
    ∀ d : CPU, d._memory.read vec.toNat = c._memory.read vec.toNat →
      d._memory.read (vec.toNat + 1) = c._memory.read (vec.toNat + 1) →
      d._readVector vec = c._readVector vec := by
  refine ⟨by cases vec <;> simp [Vector.toNat], readVector_of_reads c vec lo hi hlo hhi, ?_⟩
  intro d h1 h2
  rw [readVector_of_reads c vec lo hi hlo hhi]
  exact readVector_of_reads d vec lo hi (h1.trans hlo) (h2.trans hhi)

/-- Witness of C9: the RESET vector of `vectorMemory` reads as `0x8000`. -/
theorem readVector_little_endian_witness :
    Vector.RESET.toNat ∈ [0xFFFA, 0xFFFC, 0xFFFE] ∧
    (⟨0, 0, 0, 0x34, 0xFD, 0, false, vectorMemory, []⟩ : CPU)._readVector .RESET
      = some (0x00 + 256 * 0x80) :=
  have h := readVector_little_endian ⟨0, 0, 0, 0x34, 0xFD, 0, false, vectorMemory, []⟩
    .RESET 0x00 0x80 vectorMemory_read_lo vectorMemory_read_hi
  ⟨h.1, h.2.1⟩

/-! ## The always-on bit -/

/-- C10: the always-on bit `0x20` of the status byte is set in the state that
the constructor returns and in every state that any sequence of `CPU::reset`
and `CPU::_adc` calls reaches from it. -/
theorem always_on_bit_always_set (mem : Memory) (debug : Bool) (ks : List Call)
    (c r : CPU) (hc : CPU.ctor mem debug = some c) (hr : c.calls ks = some r) :
    c._getFlag .A = true ∧ r._getFlag .A = true := by
  have h0 : c._processor_status < 256 ∧ c._processor_status &&& 0x20 ≠ 0 := by
    unfold CPU.ctor at hc
    cases hv : CPU._readVector ⟨0x00, 0x00, 0x00, 0x34, 0xFD, 0, debug, mem, []⟩ .RESET with
    | none => simp [hv] at hc
    | some pc =>
      simp only [hv, Option.bind_eq_bind, Option.some_bind, Option.pure_def,
        Option.some.injEq] at hc
      subst hc
      show (0x34 : Nat) < 256 ∧ (0x34 : Nat) &&& 0x20 ≠ 0
      decide
  have h1 := always_on_calls ks c r hr h0
  constructor
  · simpa [CPU._getFlag, StatusFlag.toNat] using h0.2
  · simpa [CPU._getFlag, StatusFlag.toNat] using h1.2

/-- Witness of C10: construction over `vectorMemory`, then `reset`, then
`_adc`: the status byte goes `0x34`, `0x34`, `0x36` and keeps bit 5. -/
theorem always_on_bit_always_set_witness :
    CPU.ctor vectorMemory false
      = some ⟨0x00, 0x00, 0x00, 0x34, 0xFD, 0x8000, false, vectorMemory, opcodeTable⟩ ∧
    (⟨0x00, 0x00, 0x00, 0x34, 0xFD, 0x8000, false, vectorMemory, opcodeTable⟩ : CPU).calls
        [.reset, ._adc]
      = some ⟨0x00, 0x00, 0x00, 0x36, 0xFA, 0x8000, false, vectorMemory, opcodeTable⟩ ∧
    (⟨0x00, 0x00, 0x00, 0x34, 0xFD, 0x8000, false, vectorMemory, opcodeTable⟩ : CPU)._getFlag .A
      = true ∧
    (⟨0x00, 0x00, 0x00, 0x36, 0xFA, 0x8000, false, vectorMemory, opcodeTable⟩ : CPU)._getFlag .A
      = true :=
  have hc : CPU.ctor vectorMemory false
      = some ⟨0x00, 0x00, 0x00, 0x34, 0xFD, 0x8000, false, vectorMemory, opcodeTable⟩ :=
    ctor_of_reads vectorMemory false 0x00 0x80 vectorMemory_read_lo vectorMemory_read_hi
  have hr : (⟨0x00, 0x00, 0x00, 0x34, 0xFD, 0x8000, false, vectorMemory, opcodeTable⟩ : CPU).calls
        [.reset, ._adc]
      = some ⟨0x00, 0x00, 0x00, 0x36, 0xFA, 0x8000, false, vectorMemory, opcodeTable⟩ := by
    rw [CPU.calls, CPU.call,
      reset_of_reads ⟨0x00, 0x00, 0x00, 0x34, 0xFD, 0x8000, false, vectorMemory, opcodeTable⟩
        0x00 0x80 vectorMemory_read_lo vectorMemory_read_hi]
    rfl
  ⟨hc, hr, always_on_bit_always_set vectorMemory false [.reset, ._adc] _ _ hc hr⟩

/-! ## The memory bus -/

theorem ctor_store_length : Memory.ctor._memory.length = 0x800 := by
  rw [Memory.ctor, List.length_replicate]

theorem ctor_read (a : Nat) :
    Memory.ctor.read a = if a % 65536 < 0x800 then some 0 else none := by
  rw [Memory.read, Memory.ctor, List.getElem?_replicate]
  split <;> rfl

/-- C11: the claim wants every 16-bit address to lie inside the backing store.
The store that `Memory::Memory()` allocates has `0x800` bytes, so the writes
of `test.cpp` to `0xFFFC` and `0xFFFD`, the reads of the RESET vector and hence
the constructor `CPU::CPU` all index outside it; `0x800` is the first such
address and `0x7FF` the last one inside. -/
theorem memory_store_misses_the_vectors :
    Memory.ctor._memory.length = 0x800 ∧
    Memory.ctor.write 0xFFFC 0x0 = none ∧
    Memory.ctor.write 0xFFFD 0x0 = none ∧
    Memory.ctor.read 0xFFFC = none ∧
    Memory.ctor.read 0xFFFD = none ∧
    Memory.ctor.read 0x800 = none ∧
    Memory.ctor.read 0x7FF = some 0 ∧
    CPU.ctor Memory.ctor false = none := by
  have hlen : Memory.ctor._memory.length = 0x800 := ctor_store_length
  have h1 : Memory.ctor.read 0xFFFC = none := by rw [ctor_read]; rfl
  have h2 : Vector.RESET.toNat % 65536 = 0xFFFC := rfl
  refine ⟨hlen, ?_, ?_, h1, ?_, ?_, ?_, ?_⟩
  · rw [Memory.write, hlen]; rfl
  · rw [Memory.write, hlen]; rfl
  · rw [ctor_read]; rfl
  · rw [ctor_read]; rfl
  · rw [ctor_read]; rfl
  · simp only [CPU.ctor, CPU._readVector, h2, h1, Option.bind_eq_bind, Option.none_bind]

/-- C12: for every memory, every 16-bit address `a` inside the backing store
and every byte `v`, `Memory::write(a, v)` returns (with result `0`) a memory in
which `Memory::read(a)` is `v` and `Memory::read(b)` is what it was before for
every other 16-bit address `b`. -/
theorem read_after_write (m : Memory) (a v : Nat)
    (ha : a < 65536) (hin : a < m._memory.length) (hv : v < 256) :
    ∃ w, m.write a v = some (0, w) ∧
      w.read a = some v ∧
      ∀ b, b < 65536 → b ≠ a → w.read b = m.read b := by
  have ha1 : a % 65536 = a := Nat.mod_eq_of_lt ha
  have hv1 : v % 256 = v := Nat.mod_eq_of_lt hv
  refine ⟨⟨m._memory.set a v⟩, ?_, ?_, ?_⟩
  · simp [Memory.write, ha1, hv1, hin]
  · simp [Memory.read, ha1, hin, hv1]
  · intro b hb hne
    have hb1 : b % 65536 = b := Nat.mod_eq_of_lt hb
    simp only [Memory.read, hb1]
    rw [List.getElem?_set_ne (Ne.symm hne)]

/-- Witness of C12: in the store of `Memory::Memory()`, writing `0xAB` to
`0x0010` makes that address read `0xAB` and leaves every other address. -/
theorem read_after_write_witness :
    (0x0010 : Nat) < 65536 ∧ 0x0010 < Memory.ctor._memory.length ∧ (0xAB : Nat) < 256 ∧
    ∃ w, Memory.ctor.write 0x0010 0xAB = some (0, w) ∧
      w.read 0x0010 = some 0xAB ∧
      ∀ b, b < 65536 → b ≠ 0x0010 → w.read b = Memory.ctor.read b :=
  have hin : 0x0010 < Memory.ctor._memory.length := by rw [ctor_store_length]; decide
  ⟨by decide, hin, by decide,
   read_after_write Memory.ctor 0x0010 0xAB (by decide) hin (by decide)⟩

/-! ## The opcode table -/

set_option maxRecDepth 100000 in
theorem opcodeTable_lookup_isSome :
    ∀ b : Nat, b < 256 →
      ((opcodeTable.lookup b).isSome = true ↔
        b ∈ [0x69, 0x65, 0x75, 0x6D, 0x7D, 0x79, 0x61, 0x71]) := by
  decide

/-- C13, as stated, fails: the table that the constructor builds has no entry
for the opcode bytes `0x00` (BRK) and `0xA9` (LDA immediate). -/
theorem opcode_table_lacks_brk_and_lda :
    (CPU.ctor vectorMemory false).map (fun c => c._opcode_map.lookup 0x00) = some none ∧
    (CPU.ctor vectorMemory false).map (fun c => c._opcode_map.lookup 0xA9) = some none ∧
    (0x00 : Nat) < 256 ∧ (0xA9 : Nat) < 256 := by
  rw [ctor_of_reads vectorMemory false 0x00 0x80 vectorMemory_read_lo vectorMemory_read_hi]
  decide

/-- C13, amended: for every memory that stores the RESET vector, the table
that the constructor builds has an entry for an opcode byte `b` exactly when
`b` is one of the eight ADC opcodes; it has eight entries. -/
theorem opcode_table_holds_the_adc_opcodes_only (mem : Memory) (debug : Bool) (lo hi : Nat)
    (hlo : mem.read 0xFFFC = some lo) (hhi : mem.read 0xFFFD = some hi) :
    ∃ c, CPU.ctor mem debug = some c ∧
      c._opcode_map.length = 8 ∧
      ∀ b : Nat, b < 256 →
        ((c._opcode_map.lookup b).isSome = true ↔
          b ∈ [0x69, 0x65, 0x75, 0x6D, 0x7D, 0x79, 0x61, 0x71]) := by
  refine ⟨_, ctor_of_reads mem debug lo hi hlo hhi, rfl, ?_⟩
  exact opcodeTable_lookup_isSome

/-- Witness of C13, amended, over `vectorMemory`. -/
theorem opcode_table_holds_the_adc_opcodes_only_witness :
    ∃ c, CPU.ctor vectorMemory true = some c ∧
      c._opcode_map.length = 8 ∧
      ∀ b : Nat, b < 256 →
        ((c._opcode_map.lookup b).isSome = true ↔
          b ∈ [0x69, 0x65, 0x75, 0x6D, 0x7D, 0x79, 0x61, 0x71]) :=
  opcode_table_holds_the_adc_opcodes_only vectorMemory true 0x00 0x80
    vectorMemory_read_lo vectorMemory_read_hi

/-- C17: the opcode table holds one ADC entry per addressing mode: the keys
are the eight distinct bytes `0x69, 0x65, 0x75, 0x6D, 0x7D, 0x79, 0x61, 0x71`,
every mnemonic is `"ADC"`, the addressing modes are, in that order, the eight
distinct modes Immediate, ZeroPage, ZeroPageX, Absolute, AbsoluteX, AbsoluteY,
IndirectX, IndirectY with base cycles `2, 3, 4, 4, 4, 4, 6, 5`, and the
extra-cycle flag is `1` for AbsoluteX, AbsoluteY and IndirectY and `0` for the
other modes. -/
theorem adc_entry_per_addressing_mode :
    opcodeTable.map (fun e => e.1) = [0x69, 0x65, 0x75, 0x6D, 0x7D, 0x79, 0x61, 0x71] ∧
    (opcodeTable.map (fun e => e.1)).Nodup ∧
    (∀ e ∈ opcodeTable, e.2.name = "ADC" ∧ e.2.exec_func = Handler._adc) ∧
    opcodeTable.map (fun e => e.2.addressing_mode) =
      [.Immediate, .ZeroPage, .ZeroPageX, .Absolute, .AbsoluteX, .AbsoluteY,
        .IndirectX, .IndirectY] ∧
    (opcodeTable.map (fun e => e.2.addressing_mode)).Nodup ∧
    opcodeTable.map (fun e => e.2.standard_cycles) = [2, 3, 4, 4, 4, 4, 6, 5] ∧
    (∀ e ∈ opcodeTable,
      e.2.extra_cycles =
        if e.2.addressing_mode ∈
          [AddressingMode.AbsoluteX, AddressingMode.AbsoluteY, AddressingMode.IndirectY]
        then 1 else 0) := by
  decide

/-! ## What `CPU::_adc` does -/

set_option maxRecDepth 100000 in
theorem setFlag_byte_facts :
    ∀ p < 256, ∀ f : StatusFlag,
      ((p ||| f.toNat) % 256 < 256 ∧ p &&& (255 - f.toNat) < 256) ∧
      (((p ||| f.toNat) % 256 &&& f.toNat != 0) = true ∧
        (p &&& (255 - f.toNat) &&& f.toNat != 0) = false) := by
  intro p hp f
  cases f
  all_goals
    revert p
    simp only [StatusFlag.toNat]
    decide

set_option maxRecDepth 100000 in
theorem setFlag_outside_mask :
    ∀ p < 256, ∀ f : StatusFlag,
      (p ||| f.toNat) % 256 &&& (255 - f.toNat) = p &&& (255 - f.toNat) := by
  intro p hp f
  cases f
  all_goals
    revert p
    simp only [StatusFlag.toNat]
    decide

theorem other_flag_in_mask (f g : StatusFlag) (hfg : f ≠ g) :
    (255 - f.toNat) &&& g.toNat = g.toNat := by
  cases f <;> cases g
  all_goals first
    | exact absurd rfl hfg
    | decide

theorem setFlag_other_bit :
    ∀ p < 256, ∀ f g : StatusFlag, f ≠ g →
      (p ||| f.toNat) % 256 &&& g.toNat = p &&& g.toNat ∧
      p &&& (255 - f.toNat) &&& g.toNat = p &&& g.toNat := by
  intro p hp f g hfg
  have hm := other_flag_in_mask f g hfg
  have ho := setFlag_outside_mask p hp f
  constructor
  · calc (p ||| f.toNat) % 256 &&& g.toNat
        = (p ||| f.toNat) % 256 &&& ((255 - f.toNat) &&& g.toNat) := by rw [hm]
      _ = (p ||| f.toNat) % 256 &&& (255 - f.toNat) &&& g.toNat := by rw [Nat.and_assoc]
      _ = p &&& (255 - f.toNat) &&& g.toNat := by rw [ho]
      _ = p &&& ((255 - f.toNat) &&& g.toNat) := by rw [Nat.and_assoc]
      _ = p &&& g.toNat := by rw [hm]
  · rw [Nat.and_assoc, hm]

set_option maxRecDepth 100000 in
theorem setFlag_nzc_keeps_0x7C :
    ∀ p < 256, ∀ f : StatusFlag, f = .N ∨ f = .Z ∨ f = .C →
      (p ||| f.toNat) % 256 &&& 0x7C = p &&& 0x7C ∧
      p &&& (255 - f.toNat) &&& 0x7C = p &&& 0x7C := by
  intro p hp f hf
  rcases hf with h | h | h
  all_goals
    subst h
    revert p
    simp only [StatusFlag.toNat]
    decide

theorem status_setFlag_lt (c : CPU) (f : StatusFlag) (v : Bool)
    (h : c._processor_status < 256) : (c._setFlag f v)._processor_status < 256 := by
  have key := (setFlag_byte_facts c._processor_status h f).1
  cases v
  · exact key.2
  · exact key.1

theorem getFlag_setFlag_same (c : CPU) (f : StatusFlag) (v : Bool)
    (h : c._processor_status < 256) : (c._setFlag f v)._getFlag f = v := by
  have key := (setFlag_byte_facts c._processor_status h f).2
  cases v
  · exact key.2
  · exact key.1

theorem getFlag_setFlag_other (c : CPU) (f g : StatusFlag) (v : Bool)
    (h : c._processor_status < 256) (hfg : f ≠ g) :
    (c._setFlag f v)._getFlag g = c._getFlag g := by
  have key := setFlag_other_bit c._processor_status h f g hfg
  unfold CPU._getFlag
  cases v
  · show (c._processor_status &&& (255 - f.toNat) &&& g.toNat != 0) = _
    rw [key.2]
  · show ((c._processor_status ||| f.toNat) % 256 &&& g.toNat != 0) = _
    rw [key.1]

theorem status_setFlag_0x7C (c : CPU) (f : StatusFlag) (v : Bool)
    (h : c._processor_status < 256) (hf : f = .N ∨ f = .Z ∨ f = .C) :
    (c._setFlag f v)._processor_status &&& 0x7C = c._processor_status &&& 0x7C := by
  have key := setFlag_nzc_keeps_0x7C c._processor_status h f hf
  cases v
  · exact key.2
  · exact key.1

theorem nzc_chain (c : CPU) (n z cy : Bool) (hp : c._processor_status < 256) :
    (((c._setFlag .N n)._setFlag .Z z)._setFlag .C cy)._getFlag .N = n ∧
    (((c._setFlag .N n)._setFlag .Z z)._setFlag .C cy)._getFlag .Z = z ∧
    (((c._setFlag .N n)._setFlag .Z z)._setFlag .C cy)._getFlag .C = cy ∧
    (((c._setFlag .N n)._setFlag .Z z)._setFlag .C cy)._processor_status < 256 ∧
    (((c._setFlag .N n)._setFlag .Z z)._setFlag .C cy)._processor_status &&& 0x7C
      = c._processor_status &&& 0x7C ∧
    ∀ g : StatusFlag, g ≠ .N → g ≠ .Z → g ≠ .C →
      (((c._setFlag .N n)._setFlag .Z z)._setFlag .C cy)._getFlag g = c._getFlag g := by
  have h1 : (c._setFlag .N n)._processor_status < 256 := status_setFlag_lt c .N n hp
  have h2 : ((c._setFlag .N n)._setFlag .Z z)._processor_status < 256 :=
    status_setFlag_lt _ .Z z h1
  refine ⟨?_, ?_, ?_, ?_, ?_, ?_⟩
  · rw [getFlag_setFlag_other _ .C .N cy h2 (by decide),
      getFlag_setFlag_other _ .Z .N z h1 (by decide), getFlag_setFlag_same c .N n hp]
  · rw [getFlag_setFlag_other _ .C .Z cy h2 (by decide), getFlag_setFlag_same _ .Z z h1]
  · exact getFlag_setFlag_same _ .C cy h2
  · exact status_setFlag_lt _ .C cy h2
  · rw [status_setFlag_0x7C _ .C cy h2 (Or.inr (Or.inr rfl)),
      status_setFlag_0x7C _ .Z z h1 (Or.inr (Or.inl rfl)),
      status_setFlag_0x7C c .N n hp (Or.inl rfl)]
  · intro g hN hZ hC
    rw [getFlag_setFlag_other _ .C g cy h2 (Ne.symm hC),
      getFlag_setFlag_other _ .Z g z h1 (Ne.symm hZ),
      getFlag_setFlag_other c .N g n hp (Ne.symm hN)]

/-- The status byte after `CPU::_adc`, flag by flag, in terms of the 16-bit
sum that the handler forms. -/
theorem adc_flags (c : CPU) (hp : c._processor_status < 256) :
    c._adc._getFlag .N = false ∧
    c._adc._getFlag .Z =
      decide ((if c._getFlag .C = true then ((c._accumulator + 0) % 65536 + 1) % 65536
        else (c._accumulator + 0) % 65536) = 0) ∧
    c._adc._getFlag .C =
      decide ((if c._getFlag .C = true then ((c._accumulator + 0) % 65536 + 1) % 65536
        else (c._accumulator + 0) % 65536) > 0xFF) ∧
    c._adc._processor_status < 256 ∧
    c._adc._processor_status &&& 0x7C = c._processor_status &&& 0x7C ∧
    ∀ g : StatusFlag, g ≠ .N → g ≠ .Z → g ≠ .C → c._adc._getFlag g = c._getFlag g := by
  have key := nzc_chain c
    (decide ((if c._getFlag .C = true then ((c._accumulator + 0) % 65536 + 1) % 65536
        else (c._accumulator + 0) % 65536) < 0))
    (decide ((if c._getFlag .C = true then ((c._accumulator + 0) % 65536 + 1) % 65536
        else (c._accumulator + 0) % 65536) = 0))
    (decide ((if c._getFlag .C = true then ((c._accumulator + 0) % 65536 + 1) % 65536
        else (c._accumulator + 0) % 65536) > 0xFF)) hp
  refine ⟨?_, key.2.1, key.2.2.1, key.2.2.2.1, key.2.2.2.2.1, key.2.2.2.2.2⟩
  have hN := key.1
  rw [decide_eq_false (Nat.not_lt_zero _)] at hN
  exact hN

set_option maxRecDepth 100000 in
theorem bit_outside_decimal :
    ∀ p < 256, ∀ g : StatusFlag, g ≠ .D → p &&& g.toNat = p &&& 0xF7 &&& g.toNat := by
  intro p hp g hg
  cases g
  case D => exact absurd rfl hg
  all_goals
    revert p
    simp only [StatusFlag.toNat]
    decide

theorem getFlag_of_same_outside_decimal (c d : CPU) (g : StatusFlag) (hg : g ≠ .D)
    (hc : c._processor_status < 256) (hd : d._processor_status < 256)
    (hP : d._processor_status &&& 0xF7 = c._processor_status &&& 0xF7) :
    d._getFlag g = c._getFlag g := by
  unfold CPU._getFlag
  rw [bit_outside_decimal _ hd g hg, bit_outside_decimal _ hc g hg, hP]

theorem flag_kept_by_reset (g : StatusFlag) (hg : g ≠ .I) (c r : CPU)
    (hr : c.reset = some r) (h : c._processor_status < 256) :
    r._processor_status < 256 ∧ r._getFlag g = c._getFlag g := by
  unfold CPU.reset at hr
  cases hv : c._readVector .RESET with
  | none => simp [hv] at hr
  | some pc =>
    simp only [hv, Option.bind_eq_bind, Option.some_bind, Option.pure_def,
      Option.some.injEq] at hr
    subst hr
    exact ⟨status_setFlag_lt _ .I true h,
      getFlag_setFlag_other _ .I g true h (Ne.symm hg)⟩

theorem flag_kept_by_calls (g : StatusFlag)
    (hI : g ≠ .I) (hN : g ≠ .N) (hZ : g ≠ .Z) (hC : g ≠ .C) (ks : List Call) :
    ∀ c r : CPU, c.calls ks = some r → c._processor_status < 256 →
      r._processor_status < 256 ∧ r._getFlag g = c._getFlag g := by
  induction ks with
  | nil =>
    intro c r hr h
    simp only [CPU.calls, Option.some.injEq] at hr
    subst hr
    exact ⟨h, rfl⟩
  | cons k ks ih =>
    intro c r hr h
    simp only [CPU.calls] at hr
    cases hk : c.call k with
    | none => simp [hk] at hr
    | some c1 =>
      rw [hk] at hr
      simp only [Option.some_bind] at hr
      have step : c1._processor_status < 256 ∧ c1._getFlag g = c._getFlag g := by
        cases k with
        | reset => exact flag_kept_by_reset g hI c c1 hk h
        | _adc =>
          simp only [CPU.call, Option.some.injEq] at hk
          subst hk
          exact ⟨(adc_flags c h).2.2.2.1, (adc_flags c h).2.2.2.2.2 g hN hZ hC⟩
      have rest := ih c1 r hr step.1
      exact ⟨rest.1, rest.2.trans step.2⟩

/-- C14: for any two CPU states with the same accumulator whose status bytes
agree outside the Decimal bit `0x08`, `CPU::_adc` gives the same accumulator
and the same Carry, Zero, Negative and Overflow flags, and in each of the two
the Decimal bit is after the call what it was before. -/
theorem adc_ignores_decimal (c d : CPU)
    (hc : c._processor_status < 256) (hd : d._processor_status < 256)
    (hA : d._accumulator = c._accumulator)
    (hP : d._processor_status &&& 0xF7 = c._processor_status &&& 0xF7) :
    d._adc._accumulator = c._adc._accumulator ∧
    d._adc._getFlag .C = c._adc._getFlag .C ∧
    d._adc._getFlag .Z = c._adc._getFlag .Z ∧
    d._adc._getFlag .N = c._adc._getFlag .N ∧
    d._adc._getFlag .V = c._adc._getFlag .V ∧
    c._adc._getFlag .D = c._getFlag .D ∧
    d._adc._getFlag .D = d._getFlag .D := by
  have fc := adc_flags c hc
  have fd := adc_flags d hd
  have hcarry : d._getFlag .C = c._getFlag .C :=
    getFlag_of_same_outside_decimal c d .C (by decide) hc hd hP
  have hover : d._getFlag .V = c._getFlag .V :=
    getFlag_of_same_outside_decimal c d .V (by decide) hc hd hP
  refine ⟨rfl, ?_, ?_, ?_, ?_, ?_, ?_⟩
  · rw [fd.2.2.1, fc.2.2.1, hcarry, hA]
  · rw [fd.2.1, fc.2.1, hcarry, hA]
  · rw [fd.1, fc.1]
  · rw [fd.2.2.2.2.2 .V (by decide) (by decide) (by decide),
      fc.2.2.2.2.2 .V (by decide) (by decide) (by decide), hover]
  · exact fc.2.2.2.2.2 .D (by decide) (by decide) (by decide)
  · exact fd.2.2.2.2.2 .D (by decide) (by decide) (by decide)

/-- Witness of C14: accumulator `0xFF`, carry set, status `0x35` (Decimal
clear) against status `0x3D` (Decimal set). -/
theorem adc_ignores_decimal_witness :
    (adcState 0xFF 0x35)._getFlag .D = false ∧ (adcState 0xFF 0x3D)._getFlag .D = true ∧
    (adcState 0xFF 0x3D)._adc._accumulator = (adcState 0xFF 0x35)._adc._accumulator ∧
    (adcState 0xFF 0x3D)._adc._getFlag .C = (adcState 0xFF 0x35)._adc._getFlag .C ∧
    (adcState 0xFF 0x3D)._adc._getFlag .Z = (adcState 0xFF 0x35)._adc._getFlag .Z ∧
    (adcState 0xFF 0x3D)._adc._getFlag .N = (adcState 0xFF 0x35)._adc._getFlag .N ∧
    (adcState 0xFF 0x3D)._adc._getFlag .V = (adcState 0xFF 0x35)._adc._getFlag .V ∧
    (adcState 0xFF 0x35)._adc._getFlag .D = (adcState 0xFF 0x35)._getFlag .D ∧
    (adcState 0xFF 0x3D)._adc._getFlag .D = (adcState 0xFF 0x3D)._getFlag .D :=
  ⟨by decide, by decide,
   adc_ignores_decimal (adcState 0xFF 0x35) (adcState 0xFF 0x3D)
     (by decide) (by decide) rfl (by decide)⟩

theorem ctor_status (mem : Memory) (debug : Bool) (c : CPU)
    (hc : CPU.ctor mem debug = some c) : c._processor_status = 0x34 := by
  unfold CPU.ctor at hc
  cases hv : CPU._readVector ⟨0x00, 0x00, 0x00, 0x34, 0xFD, 0, debug, mem, []⟩ .RESET with
  | none => simp [hv] at hc
  | some pc =>
    simp only [hv, Option.bind_eq_bind, Option.some_bind, Option.pure_def,
      Option.some.injEq] at hc
    subst hc
    rfl

theorem vectorMemory_ctor :
    CPU.ctor vectorMemory true
      = some ⟨0x00, 0x00, 0x00, 0x34, 0xFD, 0x8000, true, vectorMemory, opcodeTable⟩ :=
  ctor_of_reads vectorMemory true 0x00 0x80 vectorMemory_read_lo vectorMemory_read_hi

theorem calls_reset_cons (c : CPU) (lo hi : Nat) (ks : List Call)
    (hlo : c._memory.read 0xFFFC = some lo) (hhi : c._memory.read 0xFFFD = some hi) :
    c.calls (.reset :: ks) =
      CPU.calls ⟨c._accumulator, c._x_register, c._y_register,
        (c._processor_status ||| 0x04) % 256, (c._stack_pointer + 256 - 3) % 256,
        lo + 256 * hi, c._debug, c._memory, c._opcode_map⟩ ks := by
  rw [CPU.calls, CPU.call, reset_of_reads c lo hi hlo hhi]
  rfl

theorem calls_adc_cons (c : CPU) (ks : List Call) :
    c.calls (._adc :: ks) = c._adc.calls ks := rfl

theorem vectorMemory_reset_adc_reset :
    (⟨0x00, 0x00, 0x00, 0x34, 0xFD, 0x8000, true, vectorMemory, opcodeTable⟩ : CPU).calls
        [.reset, ._adc, .reset]
      = some ⟨0x00, 0x00, 0x00, 0x36, 0xF7, 0x8000, true, vectorMemory, opcodeTable⟩ := by
  have h3 : (⟨0x00, 0x00, 0x00, 0x36, 0xFA, 0x8000, true, vectorMemory, opcodeTable⟩ : CPU).calls
        [.reset]
      = some ⟨0x00, 0x00, 0x00, 0x36, 0xF7, 0x8000, true, vectorMemory, opcodeTable⟩ := by
    rw [calls_reset_cons
      ⟨0x00, 0x00, 0x00, 0x36, 0xFA, 0x8000, true, vectorMemory, opcodeTable⟩
      0x00 0x80 [] vectorMemory_read_lo vectorMemory_read_hi]
    rfl
  rw [calls_reset_cons
    ⟨0x00, 0x00, 0x00, 0x34, 0xFD, 0x8000, true, vectorMemory, opcodeTable⟩
    0x00 0x80 [._adc, .reset] vectorMemory_read_lo vectorMemory_read_hi, calls_adc_cons]
  show (⟨0x00, 0x00, 0x00, 0x36, 0xFA, 0x8000, true, vectorMemory, opcodeTable⟩ : CPU).calls
    [.reset] = _
  exact h3

/-! ## The Break bit -/

/-- C15, as stated, fails: the state that the constructor returns (reached by
the empty sequence of calls) has the Break bit `0x10` set, because the
power-up status byte is `0x34`. -/
theorem break_bit_set_by_construction :
    (CPU.ctor vectorMemory true).map (fun c => c._getFlag .B) = some true ∧
    (CPU.ctor vectorMemory true).map (fun c => c._processor_status) = some 0x34 := by
  rw [vectorMemory_ctor]
  exact ⟨rfl, rfl⟩

/-- C15, amended: the Break bit `0x10` is set in the state that the
constructor returns and in every state that any sequence of `CPU::reset` and
`CPU::_adc` calls reaches from it: the power-up status byte `0x34` holds it
and neither operation writes it. -/
theorem break_bit_stays_set (mem : Memory) (debug : Bool) (ks : List Call)
    (c r : CPU) (hc : CPU.ctor mem debug = some c) (hr : c.calls ks = some r) :
    c._getFlag .B = true ∧ r._getFlag .B = true := by
  have hs : c._processor_status = 0x34 := ctor_status mem debug c hc
  have hb : c._getFlag .B = true := by
    unfold CPU._getFlag
    rw [hs]
    decide
  have hlt : c._processor_status < 256 := by rw [hs]; decide
  have keep := flag_kept_by_calls .B (by decide) (by decide) (by decide) (by decide)
    ks c r hr hlt
  exact ⟨hb, keep.2.trans hb⟩

/-- Witness of C15, amended: construction over `vectorMemory`, then `reset`,
`_adc`, `reset`: the status byte ends as `0x36`, Break still set. -/
theorem break_bit_stays_set_witness :
    CPU.ctor vectorMemory true
      = some ⟨0x00, 0x00, 0x00, 0x34, 0xFD, 0x8000, true, vectorMemory, opcodeTable⟩ ∧
    (⟨0x00, 0x00, 0x00, 0x34, 0xFD, 0x8000, true, vectorMemory, opcodeTable⟩ : CPU).calls
        [.reset, ._adc, .reset]
      = some ⟨0x00, 0x00, 0x00, 0x36, 0xF7, 0x8000, true, vectorMemory, opcodeTable⟩ ∧
    (⟨0x00, 0x00, 0x00, 0x34, 0xFD, 0x8000, true, vectorMemory, opcodeTable⟩ : CPU)._getFlag .B
      = true ∧
    (⟨0x00, 0x00, 0x00, 0x36, 0xF7, 0x8000, true, vectorMemory, opcodeTable⟩ : CPU)._getFlag .B
      = true :=
  ⟨vectorMemory_ctor, vectorMemory_reset_adc_reset,
   break_bit_stays_set vectorMemory true [.reset, ._adc, .reset] _ _
     vectorMemory_ctor vectorMemory_reset_adc_reset⟩

/-! ## The ADC handler as coded -/

/-- C16, as stated, fails: with accumulator `0xFF` and carry set, Carry is set
after `CPU::_adc` although `A + 0 > 0xFF` is false, and with carry clear it is
clear, so Carry does depend on the carry-in. -/
theorem adc_carry_depends_on_carry_in :
    (adcState 0xFF 0x35)._getFlag .C = true ∧
    (adcState 0xFF 0x35)._adc._getFlag .C = true ∧
    ¬ ((adcState 0xFF 0x35)._accumulator + 0 > 0xFF) ∧
    (adcState 0xFF 0x34)._getFlag .C = false ∧
    (adcState 0xFF 0x34)._adc._getFlag .C = false ∧
    (adcState 0xFF 0x34)._accumulator = (adcState 0xFF 0x35)._accumulator := by
  decide

/-- C16, amended: `CPU::_adc` adds zero for the operand and takes the
Negative and Carry flags from the sum after the carry-in is added: for every
state (accumulator and status byte within a byte), afterwards Carry is set iff
`A + 0 + C > 0xFF` and Negative is set iff `A + 0 + C < 0`, which never
holds. -/
theorem adc_flags_from_sum_with_carry_in (c : CPU)
    (ha : c._accumulator < 256) (hp : c._processor_status < 256) :
    (c._adc._getFlag .C = true ↔
      c._accumulator + 0 + (if c._getFlag .C = true then 1 else 0) > 0xFF) ∧
    (c._adc._getFlag .N = true ↔
      c._accumulator + 0 + (if c._getFlag .C = true then 1 else 0) < 0) ∧
    c._adc._getFlag .N = false := by
  have f := adc_flags c hp
  refine ⟨?_, ?_, f.1⟩
  · rw [f.2.2.1, decide_eq_true_iff]
    have h1 : (c._accumulator + 0) % 65536 = c._accumulator := by
      rw [Nat.add_zero]; exact Nat.mod_eq_of_lt (by omega)
    rw [h1]
    by_cases hc : c._getFlag .C = true
    · rw [if_pos hc, if_pos hc]
      have h2 : (c._accumulator + 1) % 65536 = c._accumulator + 1 :=
        Nat.mod_eq_of_lt (by omega)
      rw [h2]
    · rw [if_neg hc, if_neg hc]
      exact Iff.rfl
  · rw [f.1]
    constructor
    · intro h; cases h
    · intro h; exact absurd h (Nat.not_lt_zero _)

/-- Witness of C16, amended: accumulator `0xFF`, status `0x35` (carry set). -/
theorem adc_flags_from_sum_with_carry_in_witness :
    ((adcState 0xFF 0x35)._adc._getFlag .C = true ↔
      (adcState 0xFF 0x35)._accumulator + 0 +
        (if (adcState 0xFF 0x35)._getFlag .C = true then 1 else 0) > 0xFF) ∧
    ((adcState 0xFF 0x35)._adc._getFlag .N = true ↔
      (adcState 0xFF 0x35)._accumulator + 0 +
        (if (adcState 0xFF 0x35)._getFlag .C = true then 1 else 0) < 0) ∧
    (adcState 0xFF 0x35)._adc._getFlag .N = false :=
  adc_flags_from_sum_with_carry_in (adcState 0xFF 0x35) (by decide) (by decide)

/-- C18: for every state with accumulator `A` and carry-in `c` (accumulator
and status byte within a byte), after `CPU::_adc` the accumulator is `0`,
Negative is clear, Zero is set iff `A = 0` and `c = 0`, and Carry is set iff
`A = 0xFF` and `c = 1`. -/
theorem adc_exact_effect (c : CPU)
    (ha : c._accumulator < 256) (hp : c._processor_status < 256) :
    c._adc._accumulator = 0 ∧
    c._adc._getFlag .N = false ∧
    (c._adc._getFlag .Z = true ↔ c._accumulator = 0 ∧ c._getFlag .C = false) ∧
    (c._adc._getFlag .C = true ↔ c._accumulator = 0xFF ∧ c._getFlag .C = true) := by
  have f := adc_flags c hp
  have h1 : (c._accumulator + 0) % 65536 = c._accumulator := by
    rw [Nat.add_zero]; exact Nat.mod_eq_of_lt (by omega)
  have h2 : (c._accumulator + 1) % 65536 = c._accumulator + 1 :=
    Nat.mod_eq_of_lt (by omega)
  refine ⟨rfl, f.1, ?_, ?_⟩
  · rw [f.2.1, decide_eq_true_iff, h1]
    by_cases hc : c._getFlag .C = true
    · rw [if_pos hc, h2, hc]
      constructor
      · intro h; omega
      · intro h; cases h.2
    · rw [if_neg hc]
      have hc : c._getFlag .C = false := by simpa using hc
      rw [hc]
      constructor
      · intro h; exact ⟨h, rfl⟩
      · intro h; exact h.1
  · rw [f.2.2.1, decide_eq_true_iff, h1]
    by_cases hc : c._getFlag .C = true
    · rw [if_pos hc, h2, hc]
      constructor
      · intro h; exact ⟨by omega, rfl⟩
      · intro h; omega
    · rw [if_neg hc]
      have hc : c._getFlag .C = false := by simpa using hc
      rw [hc]
      constructor
      · intro h; omega
      · intro h; cases h.2

/-- Witness of C18: accumulator `0xFF` with carry set gives accumulator `0`,
Carry set, Zero and Negative clear. -/
theorem adc_exact_effect_witness :
    (adcState 0xFF 0x35)._adc._accumulator = 0 ∧
    (adcState 0xFF 0x35)._adc._getFlag .N = false ∧
    ((adcState 0xFF 0x35)._adc._getFlag .Z = true ↔
      (adcState 0xFF 0x35)._accumulator = 0 ∧ (adcState 0xFF 0x35)._getFlag .C = false) ∧
    ((adcState 0xFF 0x35)._adc._getFlag .C = true ↔
      (adcState 0xFF 0x35)._accumulator = 0xFF ∧ (adcState 0xFF 0x35)._getFlag .C = true) :=
  adc_exact_effect (adcState 0xFF 0x35) (by decide) (by decide)

/-- C19: for every state (status byte within a byte), `CPU::_adc` leaves X, Y,
the stack pointer, the program counter and memory as they were, and the status
byte as it was on the bits I, D, B, always-1 and V (mask `0x7C`); the debug
member and the opcode table are the same as well. -/
theorem adc_touches_only_A_and_NZC (c : CPU) (hp : c._processor_status < 256) :
    c._adc._x_register = c._x_register ∧
    c._adc._y_register = c._y_register ∧
    c._adc._stack_pointer = c._stack_pointer ∧
    c._adc._program_counter = c._program_counter ∧
    c._adc._memory = c._memory ∧
    c._adc._debug = c._debug ∧
    c._adc._opcode_map = c._opcode_map ∧
    c._adc._processor_status &&& 0x7C = c._processor_status &&& 0x7C ∧
    c._adc._getFlag .I = c._getFlag .I ∧
    c._adc._getFlag .D = c._getFlag .D ∧
    c._adc._getFlag .B = c._getFlag .B ∧
    c._adc._getFlag .A = c._getFlag .A ∧
    c._adc._getFlag .V = c._getFlag .V := by
  have f := adc_flags c hp
  exact ⟨rfl, rfl, rfl, rfl, rfl, rfl, rfl, f.2.2.2.2.1,
    f.2.2.2.2.2 .I (by decide) (by decide) (by decide),
    f.2.2.2.2.2 .D (by decide) (by decide) (by decide),
    f.2.2.2.2.2 .B (by decide) (by decide) (by decide),
    f.2.2.2.2.2 .A (by decide) (by decide) (by decide),
    f.2.2.2.2.2 .V (by decide) (by decide) (by decide)⟩

/-- Witness of C19: a state with distinct register values, status `0xFD`
(every bit set but Zero), over `vectorMemory`. -/
theorem adc_touches_only_A_and_NZC_witness :
    (0xFD : Nat) < 256 ∧
    (⟨0x11, 0x22, 0x33, 0xFD, 0x44, 0x1234, true, vectorMemory, opcodeTable⟩ : CPU)._adc
      = ⟨0x00, 0x22, 0x33, 0x7C, 0x44, 0x1234, true, vectorMemory, opcodeTable⟩ ∧
    (0x7C : Nat) &&& 0x7C = 0xFD &&& 0x7C :=
  have h := adc_touches_only_A_and_NZC
    ⟨0x11, 0x22, 0x33, 0xFD, 0x44, 0x1234, true, vectorMemory, opcodeTable⟩ (by decide)
  ⟨by decide, rfl, h.2.2.2.2.2.2.2.1⟩

end NES
